import Mathlib

/-!
A verification development for the resource loading and caching subsystem
(`pc.resources.ResourceLoader`, `ResourceRequest`, `ResourceHandler`).

JavaScript objects used as string-keyed dictionaries are modelled as
association lists with the first binding for a key authoritative; insertion
replaces in place, so maps built from the empty state have unique keys.
JavaScript truthiness of string-valued lookups is modelled explicitly:
`undefined` (here `none`) and the empty string are falsy.

Promises are modelled denotationally: a settled promise is an
`Except JsErr V`; a promise that may never settle is an
`Option (Except JsErr V)` with `none` meaning no settlement ever occurs.
The synchronous portion of a dispatch (`_request`) runs to a `PResult`;
the asynchronous continuations (`completeLoad` for the handler's load
promise and `dedupFollowOn` for a deduplicated second caller) are separate
functions applied to the outcome of the awaited promise, exactly mirroring
the callbacks installed in the source.
-/

namespace PcResources

/-- JS truthiness of a string-valued dictionary lookup: `undefined`
(modelled as `none`) and the empty string are falsy. -/
def truthy : Option String → Bool
  | none => false
  | some s => decide (s ≠ "")

/-- Lookup in a string-keyed association list (`obj[key]`). -/
def alFind {α : Type _} : List (String × α) → String → Option α
  | [], _ => none
  | (k, v) :: rest, key => if k = key then some v else alFind rest key

/-- Assignment `obj[key] = val`: replace in place or append. -/
def alInsert {α : Type _} : List (String × α) → String → α → List (String × α)
  | [], key, val => [(key, val)]
  | (k, v) :: rest, key, val =>
      if k = key then (key, val) :: rest else (k, v) :: alInsert rest key val

/-- Deletion `delete obj[key]`: removes every binding for the key
(JS objects have unique keys, so this coincides with deleting the one). -/
def alErase {α : Type _} (l : List (String × α)) (key : String) : List (String × α) :=
  l.filter (fun p => decide (p.1 ≠ key))

/-- The write pattern `if (!obj[key]) { obj[key] = val; }` shared by both
statements of `registerHash`. -/
def jsSetIfFalsy (m : List (String × String)) (key val : String) :
    List (String × String) :=
  if truthy (alFind m key) then m else alInsert m key val

/-- ResourceRequest, transcribed from the constructor: `id` starts `null`,
`canonical` starts as the identifier, `promises` starts empty (we track its
length in `promiseCount`; the promises themselves are modelled by the
dispatch results), `data` and `result` are optional caller payloads
(`result` is tracked only through its truthiness, which is all the loader
inspects), `type` is the handler tag from the request prototype and
`TypeTag` models the prototype's `Type` field (the expected resource class)
as an abstract tag. -/
structure Req (D : Type) where
  id : Option Nat := none
  identifier : String
  canonical : String
  promiseCount : Nat := 0
  data : Option D := none
  result : Bool := false
  type : String
  TypeTag : Option String := none
  deriving Repr

/-- A registered ResourceHandler for one type: `openFn` models
`handler.open(data, request)` with a thrown exception as `.error`,
`cloneFn` models `handler.clone(resource, request)`. `load` is not a
field because its outcome is delivered asynchronously; it is a parameter
of `completeLoad`. -/
structure HandlerSpec (D V : Type) where
  openFn : D → Req D → Except String V
  cloneFn : V → Req D → V

/-- The ambient JavaScript semantics of resource values: their truthiness
and the `instanceof` relation against a type tag. -/
structure JsModel (V : Type) where
  vTruthy : V → Bool
  instOf : V → String → Bool

/-- The cache type check of `_request` (line 466):
`request.Type === undefined || (resource instanceof request.Type)`. -/
def typeOk {D V : Type} (M : JsModel V) (req : Req D) (resource : V) : Bool :=
  match req.TypeTag with
  | none => true
  | some t => M.instOf resource t

/-- The ResourceLoader state: the fields initialised by the constructor. -/
structure Loader (D V : Type) where
  handlers : List (String × HandlerSpec D V) := []
  requests : List (String × Req D) := []
  cache : List (String × V) := []
  hashes : List (String × String) := []
  canonicals : List (String × String) := []
  requested : Nat := 0
  loaded : Nat := 0
  sequence : Nat := 0

/-- Rejection reasons: a thrown `TypeError` from accessing a property of
`undefined`, or an ordinary rejection value (message or exception). -/
inductive JsErr where
  | typeError : JsErr
  | reason : String → JsErr
  deriving DecidableEq, Repr

/-- Observable effects: the loader's fired events plus the two handler
invocations the claims count (`loadCall` records `request.canonical` at a
`handler.load` call, `cloneCall` at a `handler.clone` call). `progress`
records numerator `_loaded` and denominator `_requested`. -/
inductive Ev where
  | request : String → Ev
  | error : String → Ev
  | loadCall : String → Ev
  | cloneCall : String → Ev
  | progress : Nat → Nat → Ev
  | loadFired : Ev
  deriving DecidableEq, Repr

/-- True for a `handler.load` invocation event. -/
def isLoadCall : Ev → Bool
  | .loadCall _ => true
  | _ => false

/-- True for a `handler.clone` invocation event. -/
def isCloneCall : Ev → Bool
  | .cloneCall _ => true
  | _ => false

namespace Loader

variable {D V : Type}

/-- `getHash(identifier)`: return the hash registered against the
identifier, or `undefined`. -/
def getHash (st : Loader D V) (identifier : String) : Option String :=
  alFind st.hashes identifier

/-- `registerHash(hash, identifier)`: `if (!this._hashes[identifier])`
associate the hash; `if (!this._canonicals[hash])` the identifier becomes
canonical for the hash. Both guards are JS truthiness tests; the first
statement touches only `_hashes` and the second only reads and writes
`_canonicals`, so they are two independent guarded writes. -/
def registerHash (st : Loader D V) (hash identifier : String) : Loader D V :=
  { st with hashes := jsSetIfFalsy st.hashes identifier hash,
            canonicals := jsSetIfFalsy st.canonicals hash identifier }

/-- `unregisterHash(identifier)`: `var hash = this.getHash(identifier);
if (hash) { delete this._canonicals[hash]; delete this._hashes[identifier]; }`.
Note that the canonical entry for the hash is deleted unconditionally. -/
def unregisterHash (st : Loader D V) (identifier : String) : Loader D V :=
  match st.getHash identifier with
  | none => st
  | some hash =>
      if hash = "" then st
      else { st with canonicals := alErase st.canonicals hash,
                     hashes := alErase st.hashes identifier }

/-- `addToCache(identifier, resource)`: resolve the hash; without a truthy
hash the call is a no-op. -/
def addToCache (st : Loader D V) (identifier : String) (resource : V) : Loader D V :=
  match st.getHash identifier with
  | none => st
  | some hash =>
      if hash = "" then st
      else { st with cache := alInsert st.cache hash resource }

/-- `getFromCache(identifier)`: resolve the hash; `null` (here `none`)
without a truthy hash, otherwise the cache entry (or `undefined`). -/
def getFromCache (st : Loader D V) (identifier : String) : Option V :=
  match st.getHash identifier with
  | none => none
  | some hash =>
      if hash = "" then none
      else alFind st.cache hash

/-- `removeFromCache(identifier)`: resolve the hash and delete the entry. -/
def removeFromCache (st : Loader D V) (identifier : String) : Loader D V :=
  match st.getHash identifier with
  | none => st
  | some hash =>
      if hash = "" then st
      else { st with cache := alErase st.cache hash }

/-- `resetProgress()`: zero both counters. -/
def resetProgress (st : Loader D V) : Loader D V :=
  { st with requested := 0, loaded := 0 }

/-- `registerHandler(RequestType, handler)`: throws when the request type
tag is empty, else binds the handler to the tag (replacing any previous
binding). The parallel `_types` table is not needed by any claim. -/
def registerHandler (st : Loader D V) (typ : String) (h : HandlerSpec D V) :
    Except String (Loader D V) :=
  if typ = "" then .error "ResourceRequests must have a type"
  else .ok { st with handlers := alInsert st.handlers typ h }

/-- `_makeCanonical(request)`: `if (hash && this._canonicals[hash])` use
the canonical identifier, else the request's own identifier. -/
def makeCanonical (st : Loader D V) (req : Req D) : Req D :=
  match st.getHash req.identifier with
  | none => { req with canonical := req.identifier }
  | some hash =>
      if hash = "" then { req with canonical := req.identifier }
      else
        match alFind st.canonicals hash with
        | none => { req with canonical := req.identifier }
        | some c =>
            if c = "" then { req with canonical := req.identifier }
            else { req with canonical := c }

/-- `_findExistingRequest(request)`: look up `_requests[request.canonical]`
(the canonical as currently stored on the request object); reuse the
existing request unless the types differ or either carries a result object.
The boolean reports whether the existing object was returned, which is the
`request !== requests[i]` identity test made by `request()`. -/
def findExistingRequest (st : Loader D V) (req : Req D) : Req D × Bool :=
  match alFind st.requests req.canonical with
  | none => (req, false)
  | some existing =>
      if existing.type ≠ req.type ∨ existing.result = true ∨ req.result = true then
        (req, false)
      else (existing, true)

/-- `_postOpen(resource, request)`: write the cache entry for the canonical
identifier, clone, remove the in-flight entry, bump `_loaded`, fire
progress and load events. `none` in the second component models the
`TypeError` thrown when no handler is registered for the request type
(`this._handlers[request.type].clone` on `undefined`); the first component
is the state at the moment of the throw (the cache write precedes it). -/
def postOpen (st : Loader D V) (req : Req D) (resource : V) :
    Loader D V × Option (V × List Ev) :=
  let st1 := st.addToCache req.canonical resource
  match alFind st1.handlers req.type with
  | none => (st1, none)
  | some h =>
      let res := h.cloneFn resource req
      let st2 := { st1 with requests := alErase st1.requests req.canonical,
                            loaded := st1.loaded + 1 }
      (st2, some (res, [Ev.cloneCall req.canonical,
                        Ev.progress st2.loaded st2.requested,
                        Ev.loadFired]))

end Loader

/-- The status of the caller-facing promise returned by `_request` after
its synchronous part has run: settled at once (cache hit, missing handler,
or a throw inside the executor), waiting on the handler's load promise, or
(for a deduplicated caller) waiting on the primary promise `promises[0]`. -/
inductive PResult (V : Type) where
  | settled : Except JsErr V → PResult V
  | pendingLoad : PResult V
  | pendingPrimary : PResult V
  deriving Repr

/-- The result of the synchronous part of one `_request` dispatch: the new
loader state, the (mutated) request object, the events fired so far and the
status of the promise `_request` returns to `request()`. -/
structure DOut (D V : Type) where
  st : Loader D V
  req : Req D
  events : List Ev
  res : PResult V

namespace Loader

variable {D V : Type}

/-- `_request(request, options)`, the synchronous part (lines 429-495):
assign a sequence id if the request has none, fire `"request"`, then
either push a follow-on promise (a promise chain already exists), reject
for a missing handler, resolve from the cache through `_postOpen` when the
cached value is truthy and passes the `instanceof` check, or invoke
`handler.load`. The promise executor runs synchronously, so the
cache-hit/missing-handler effects precede the trailing
`this._requests[request.canonical] = request; this._requested++`. -/
def dispatch (st0 : Loader D V) (M : JsModel V) (req0 : Req D) : DOut D V :=
  let seqPair :=
    match req0.id with
    | none => ({ st0 with sequence := st0.sequence + 1 },
               { req0 with id := some st0.sequence })
    | some _ => (st0, req0)
  let st := seqPair.1
  let req := seqPair.2
  let evs0 := [Ev.request req.identifier]
  if req.promiseCount ≠ 0 then
    let req1 := { req with promiseCount := req.promiseCount + 1 }
    let st1 := { st with requests := alInsert st.requests req1.canonical req1,
                         requested := st.requested + 1 }
    ⟨st1, req1, evs0, .pendingPrimary⟩
  else
    let req1 := { req with promiseCount := 1 }
    match alFind st.handlers req1.type with
    | none =>
        let msg := "Missing handler for type: " ++ req1.type
        let st1 := { st with requests := alInsert st.requests req1.canonical req1,
                             requested := st.requested + 1 }
        ⟨st1, req1, evs0 ++ [Ev.error msg], .settled (.error (.reason msg))⟩
    | some _ =>
        let cachedOk : Option V :=
          match st.getFromCache req1.canonical with
          | none => none
          | some resource =>
              if M.vTruthy resource && typeOk M req1 resource then some resource
              else none
        match cachedOk with
        | some resource =>
            match st.postOpen req1 resource with
            | (stp, some (res, pevs)) =>
                let st1 := { stp with requests := alInsert stp.requests req1.canonical req1,
                                      requested := stp.requested + 1 }
                ⟨st1, req1, evs0 ++ pevs, .settled (.ok res)⟩
            | (stp, none) =>
                let st1 := { stp with requests := alInsert stp.requests req1.canonical req1,
                                      requested := stp.requested + 1 }
                ⟨st1, req1, evs0, .settled (.error .typeError)⟩
        | none =>
            let st1 := { st with requests := alInsert st.requests req1.canonical req1,
                                 requested := st.requested + 1 }
            ⟨st1, req1, evs0 ++ [Ev.loadCall req1.canonical], .pendingLoad⟩

/-- The continuation installed on the handler's load promise
(lines 473-486): on fulfilment run `_open` inside try/catch (a throw,
including the `TypeError` from a vanished handler, becomes a rejection),
run `_postOpen` only when the opened resource is truthy, and resolve; on
rejection fire `"error"` and reject. -/
def completeLoad (st : Loader D V) (M : JsModel V) (req : Req D)
    (loadOutcome : Except String D) :
    Loader D V × Except JsErr V × List Ev :=
  match loadOutcome with
  | .error err => (st, .error (.reason err), [Ev.error err])
  | .ok data =>
      match alFind st.handlers req.type with
      | none => (st, .error .typeError, [])
      | some h =>
          match h.openFn data req with
          | .error e => (st, .error (.reason e), [])
          | .ok resource =>
              if M.vTruthy resource then
                match st.postOpen req resource with
                | (stp, some (res, pevs)) => (stp, .ok res, pevs)
                | (stp, none) => (stp, .error .typeError, [])
              else (st, .ok resource, [])

/-- The follow-on promise pushed for a deduplicated caller (lines 442-449):
`request.promises[0].then(function (resource) { resource =
self._postOpen(resource, request); resolve(resource); })`. The `then` call
installs no rejection handler, so when the primary promise rejects the
follow-on promise never settles (`none`); a throw inside the callback
likewise leaves it unsettled. -/
def dedupFollowOn (st : Loader D V) (req : Req D) (primary : Except JsErr V) :
    Option (Loader D V × Except JsErr V × List Ev) :=
  match primary with
  | .error _ => none
  | .ok resource =>
      match st.postOpen req resource with
      | (stp, some (res, pevs)) => some (stp, .ok res, pevs)
      | (_, none) => none

/-- The per-item body of `request()` (lines 259-276): find-or-merge on the
request's current canonical, copy the incoming `data` onto a reused
request, canonicalize, dispatch. The boolean reports whether an existing
in-flight request was reused. Parent/child registration is modelled
separately (see `check`). -/
def requestOne (st : Loader D V) (M : JsModel V) (incoming : Req D) :
    DOut D V × Bool :=
  let found := st.findExistingRequest incoming
  let req := if found.2 then { found.1 with data := incoming.data } else found.1
  let req1 := st.makeCanonical req
  (st.dispatch M req1, found.2)

/-- `ResourceLoader.open(RequestType, data, options)` (lines 323-326):
construct a request of the type and invoke
`this._handlers[request.type].open` with no presence check — a missing
handler surfaces as the `TypeError` from accessing `.open` on
`undefined`. -/
def openDirect (st : Loader D V) (typ : String) (data : D) : Except JsErr V :=
  match alFind st.handlers typ with
  | none => .error .typeError
  | some h =>
      match h.openFn data { identifier := "", canonical := "", type := typ } with
      | .ok v => .ok v
      | .error e => .error (.reason e)

end Loader

/-- One step of loader bookkeeping in which some `_postOpen` call succeeds:
used to state progress monotonicity over a sequence of completions. -/
def PostOpenStep {D V : Type} (st st' : Loader D V) : Prop :=
  ∃ (req : Req D) (r : V) (v : V) (evs : List Ev),
    st.postOpen req r = (st', some (v, evs))

/-- The value `this._loaded / this._requested` fired by progress events,
as a rational number. -/
def progressRatio {D V : Type} (st : Loader D V) : ℚ :=
  (st.loaded : ℚ) / (st.requested : ℚ)

/-- A sequence of `registerHash(hash, identifier)` calls applied in
order. -/
def applyRegs {D V : Type} (st : Loader D V) (calls : List (String × String)) :
    Loader D V :=
  calls.foldl (fun s c => s.registerHash c.1 c.2) st

/-! Concrete instantiation used by closed scenarios: resources and raw data
are natural numbers, zero is the only falsy value, and every value is an
instance of every type tag. -/

/-- Concrete JS semantics for `V := Nat`. -/
def natM : JsModel Nat := ⟨fun v => decide (v ≠ 0), fun _ _ => true⟩

/-- A concrete handler whose `open` returns the loaded data and whose
`clone` shares the instance (the `ResourceHandler` base-class default). -/
def natHandler : HandlerSpec Nat Nat := ⟨fun d _ => .ok d, fun v _ => v⟩

/-- A freshly constructed request for a type and identifier, as built by a
request constructor: `canonical` starts equal to the identifier. -/
def mkReq {D : Type} (typ identifier : String) : Req D :=
  { identifier := identifier, canonical := identifier, type := typ }

/-- Scenario for the dedup claim: one handler for type `"image"`, hash
`"h1"` registered for `"a.png"` and then `"b.png"`, so `"a.png"` is
canonical for both. -/
def stC1 : Loader Nat Nat :=
  (({ handlers := [("image", natHandler)] } : Loader Nat Nat).registerHash
      "h1" "a.png").registerHash "h1" "b.png"

/-- Issue `request("a.png")` and then `request("b.png")` while the first
load is still pending, recording both dispatch results. -/
def runC1 : DOut Nat Nat × DOut Nat Nat :=
  let o1 := (stC1.requestOne natM (mkReq "image" "a.png")).1
  let o2 := (o1.st.requestOne natM (mkReq "image" "b.png")).1
  (o1, o2)

/-- Scenario for the counter claim: two `request("x.png")` calls for the
same identifier issued while the first is still in flight, so the second
is merged onto the existing in-flight request. -/
def runC5 : (DOut Nat Nat × Bool) × (DOut Nat Nat × Bool) :=
  let r1 := ({ handlers := [("image", natHandler)] } : Loader Nat Nat).requestOne
      natM (mkReq "image" "x.png")
  let r2 := r1.1.st.requestOne natM (mkReq "image" "x.png")
  (r1, r2)

/-- The loader state used by cache-hit scenarios: one handler bound to a
type tag, one identifier with a registered hash canonical for itself. -/
def c7st0 {D V : Type} (hs : HandlerSpec D V) (t ident hsh : String) : Loader D V :=
  { handlers := [(t, hs)], hashes := [(ident, hsh)], canonicals := [(hsh, ident)] }

/-- Phase one of the cache-hit scenario: dispatch `request(ident)` against
an empty cache and settle its load promise with outcome `dOut`. Returns
the post-completion state and the first caller's settlement and events. -/
def c7afterFirst {D V : Type} (M : JsModel V) (hs : HandlerSpec D V)
    (t ident hsh : String) (dOut : Except String D) :
    DOut D V × (Loader D V × Except JsErr V × List Ev) :=
  let o1 := ((c7st0 hs t ident hsh).requestOne M (mkReq t ident)).1
  (o1, o1.st.completeLoad M o1.req dOut)

/-- Phase two of the cache-hit scenario: a second `request(ident)` issued
after the first completed successfully with raw data `d`. -/
def c7second {D V : Type} (M : JsModel V) (hs : HandlerSpec D V)
    (t ident hsh : String) (d : D) : DOut D V :=
  ((c7afterFirst M hs t ident hsh (.ok d)).2.1.requestOne M (mkReq t ident)).1

/-! The recursive child-completion algorithm of `request()` (lines
280-307), modelled denotationally over the settled promise trees. A node
records the settled outcomes of one request's `promises` list and the
requests registered as its children. -/

/-- A settled request tree: the outcomes of this request's promises and
its child requests. -/
inductive RNode (V : Type) where
  | node : List (Except String V) → List (RNode V) → RNode V
  deriving Repr

/-- The settled outcomes of the request's `promises` list. -/
def RNode.promises {V : Type} : RNode V → List (Except String V)
  | .node p _ => p

/-- The request's registered children. -/
def RNode.children {V : Type} : RNode V → List (RNode V)
  | .node _ c => c

/-- `childRequests`: every child of every request in the round, in order. -/
def flatChildren {V : Type} : List (RNode V) → List (RNode V)
  | [] => []
  | n :: rest => n.children ++ flatChildren rest

/-- `childPromises`: all promises of the given requests, in order
(`childPromises.push.apply(childPromises, c.promises)`). -/
def flatPromises {V : Type} : List (RNode V) → List (Except String V)
  | [] => []
  | n :: rest => n.promises ++ flatPromises rest

/-- Every node of the forest, roots included. -/
def subtreeNodes {V : Type} : List (RNode V) → List (RNode V)
  | [] => []
  | .node p cs :: rest => .node p cs :: (subtreeNodes cs ++ subtreeNodes rest)

/-- Number of nodes in the forest (termination measure for `check`). -/
def forestSize {V : Type} : List (RNode V) → Nat
  | [] => 0
  | .node _ cs :: rest => 1 + forestSize cs + forestSize rest

/-- `pc.promise.all`, denotationally: the list of fulfilment values, or
the first rejection reason. -/
def promiseAll {V : Type} : List (Except String V) → Except String (List V)
  | [] => .ok []
  | .error e :: _ => .error e
  | .ok v :: rest =>
      match promiseAll rest with
      | .error e => .error e
      | .ok vs => .ok (v :: vs)

/-- The `check` loop of `request()` (lines 280-301): gather the children
of the just-settled requests and all of their promises; when there are
none resolve with the top-level resources unchanged, otherwise await them
all (rejecting on any rejection) and recurse into the child round. The
third parameter of the source function is dead and omitted. -/
def check {V : Type} (resources : List V) (requests : List (RNode V)) :
    Except String (List V) :=
  let childRequests := flatChildren requests
  let childPromises := flatPromises childRequests
  if childPromises.isEmpty then .ok resources
  else
    match promiseAll childPromises with
    | .error e => .error e
    | .ok _ => check resources childRequests
termination_by forestSize requests
decreasing_by
  rename_i hcp
  have hApp : ∀ (a b : List (RNode V)),
      forestSize (a ++ b) = forestSize a + forestSize b := by
    intro a
    induction a with
    | nil => intro b; simp [forestSize]
    | cons n rest ih =>
        intro b
        cases n with
        | node p cs => simp only [List.cons_append, forestSize, ih]; omega
  have hLe : ∀ (rs : List (RNode V)), forestSize (flatChildren rs) ≤ forestSize rs := by
    intro rs
    induction rs with
    | nil => simp [flatChildren, forestSize]
    | cons n rest ih =>
        cases n with
        | node p cs =>
            simp only [flatChildren, forestSize, hApp, RNode.children]
            omega
  have hLt : ∀ (rs : List (RNode V)), rs ≠ [] →
      forestSize (flatChildren rs) < forestSize rs := by
    intro rs hne
    cases rs with
    | nil => exact absurd rfl hne
    | cons n rest =>
        cases n with
        | node p cs =>
            simp only [flatChildren, forestSize, hApp, RNode.children]
            have := hLe rest
            omega
  refine hLt requests ?_
  intro hnil
  apply hcp
  subst hnil
  rfl

/-- The caller-facing promise of one top-level request: `_request` returns
`request.promises[request.promises.length - 1]`. -/
def callerPromise {V : Type} (n : RNode V) : Except String V :=
  (n.promises.getLast?).getD (.error "no promise")

/-- The aggregate promise of one `request()` call (lines 303-307): await
the collected top-level promises, then run `check` with the resulting
resources and the top-level requests. -/
def requestCall {V : Type} (tops : List (RNode V)) : Except String (List V) :=
  match promiseAll (tops.map callerPromise) with
  | .error e => .error e
  | .ok resources => check resources tops

end PcResources

/-! Association-list lemmas. -/

namespace PcResources

theorem alFind_cons {α : Type _} (a : String) (b : α) (rest : List (String × α))
    (key : String) :
    alFind ((a, b) :: rest) key = if a = key then some b else alFind rest key := rfl

theorem alErase_cons_self {α : Type _} (a : String) (b : α) (rest : List (String × α))
    (k : String) (ha : a = k) : alErase ((a, b) :: rest) k = alErase rest k := by
  simp [alErase, ha]

theorem alErase_cons_ne {α : Type _} (a : String) (b : α) (rest : List (String × α))
    (k : String) (ha : a ≠ k) : alErase ((a, b) :: rest) k = (a, b) :: alErase rest k := by
  simp [alErase, ha]

theorem alFind_insert_self {α : Type _} (l : List (String × α)) (k : String) (v : α) :
    alFind (alInsert l k v) k = some v := by
  induction l with
  | nil => simp [alInsert, alFind]
  | cons p rest ih =>
      obtain ⟨a, b⟩ := p
      by_cases ha : a = k
      · simp [alInsert, alFind, ha]
      · simp [alInsert, alFind_cons, ha, ih]

theorem alFind_insert_ne {α : Type _} (l : List (String × α)) (k k' : String) (v : α)
    (h : k' ≠ k) : alFind (alInsert l k v) k' = alFind l k' := by
  induction l with
  | nil => simp [alInsert, alFind, Ne.symm h]
  | cons p rest ih =>
      obtain ⟨a, b⟩ := p
      by_cases ha : a = k
      · simp [alInsert, alFind_cons, ha, Ne.symm h]
      · rw [show alInsert ((a, b) :: rest) k v = (a, b) :: alInsert rest k v by
              simp [alInsert, ha],
            alFind_cons, alFind_cons, ih]

theorem alFind_erase_self {α : Type _} (l : List (String × α)) (k : String) :
    alFind (alErase l k) k = none := by
  induction l with
  | nil => rfl
  | cons p rest ih =>
      obtain ⟨a, b⟩ := p
      by_cases ha : a = k
      · rw [alErase_cons_self a b rest k ha, ih]
      · rw [alErase_cons_ne a b rest k ha, alFind_cons, if_neg ha, ih]

theorem alFind_erase_ne {α : Type _} (l : List (String × α)) (k k' : String)
    (h : k' ≠ k) : alFind (alErase l k) k' = alFind l k' := by
  induction l with
  | nil => rfl
  | cons p rest ih =>
      obtain ⟨a, b⟩ := p
      by_cases ha : a = k
      · rw [alErase_cons_self a b rest k ha, ih, alFind_cons,
            if_neg (fun hak : a = k' => h (hak ▸ ha ▸ rfl))]
      · rw [alErase_cons_ne a b rest k ha, alFind_cons, alFind_cons, ih]

theorem alInsert_idem {α : Type _} (l : List (String × α)) (k : String) (v : α) :
    alInsert (alInsert l k v) k v = alInsert l k v := by
  induction l with
  | nil => simp [alInsert]
  | cons p rest ih =>
      by_cases hp : p.1 = k
      · simp [alInsert, hp]
      · simp [alInsert, hp, ih]

/-! Lemmas about the `registerHash` write pattern. -/

theorem jsSetIfFalsy_idem (m : List (String × String)) (k v : String) :
    jsSetIfFalsy (jsSetIfFalsy m k v) k v = jsSetIfFalsy m k v := by
  by_cases h : truthy (alFind m k) = true
  · simp [jsSetIfFalsy, h]
  · have h1 : jsSetIfFalsy m k v = alInsert m k v := by simp [jsSetIfFalsy, h]
    rw [h1]
    by_cases hv : v = ""
    · have hf : truthy (alFind (alInsert m k v) k) = false := by
        rw [alFind_insert_self, hv]; rfl
      simp [jsSetIfFalsy, hf, alInsert_idem]
    · have ht : truthy (alFind (alInsert m k v) k) = true := by
        rw [alFind_insert_self]; simp [truthy, hv]
      simp [jsSetIfFalsy, ht]

theorem jsSetIfFalsy_preserve (m : List (String × String)) (k k' v c : String)
    (hfind : alFind m k = some c) (hc : c ≠ "") :
    alFind (jsSetIfFalsy m k' v) k = some c := by
  by_cases hk : k = k'
  · subst hk
    simp [jsSetIfFalsy, hfind, truthy, hc]
  · by_cases h : truthy (alFind m k') = true
    · simp [jsSetIfFalsy, h, hfind]
    · simp [jsSetIfFalsy, h, alFind_insert_ne _ _ _ _ hk, hfind]

end PcResources

/-! Claims C4, C6, C9: the hash registry. -/

namespace PcResources

/-- C4 counterexample: with `"a"` registered first (so canonical for
`"h"`), `unregisterHash("b")` removes the `h → canonical` entry even
though the canonical identifier for `"h"` is `"a"`, not `"b"` — the claim
says the mapping would be left unchanged. -/
theorem unregisterHash_counterexample :
    alFind ((({} : Loader Nat Nat).registerHash "h" "a").registerHash
        "h" "b").canonicals "h" = some "a" ∧
    alFind (((({} : Loader Nat Nat).registerHash "h" "a").registerHash
        "h" "b").unregisterHash "b").canonicals "h" = none :=
  ⟨rfl, by decide⟩

/-- C4 amended: for an identifier whose registered hash is truthy,
`unregisterHash(i)` removes the `i → hash` entry and removes the
`hash → canonical` entry unconditionally — also when the canonical
identifier recorded for the hash is a different identifier. -/
theorem unregisterHash_amended {D V : Type} (st : Loader D V) (i h : String)
    (hreg : st.getHash i = some h) (hne : h ≠ "") :
    alFind (st.unregisterHash i).hashes i = none ∧
    alFind (st.unregisterHash i).canonicals h = none := by
  unfold Loader.unregisterHash
  rw [hreg]
  dsimp only
  rw [if_neg hne]
  exact ⟨alFind_erase_self _ _, alFind_erase_self _ _⟩

/-- C4 witness: the amended statement at the counterexample state. -/
theorem unregisterHash_amended_witness :
    alFind (((({} : Loader Nat Nat).registerHash "h" "a").registerHash
        "h" "b").unregisterHash "b").hashes "b" = none ∧
    alFind (((({} : Loader Nat Nat).registerHash "h" "a").registerHash
        "h" "b").unregisterHash "b").canonicals "h" = none :=
  unregisterHash_amended _ "b" "h" rfl (by decide)

/-- C6 counterexample: registering the empty string defeats both
first-writer-wins guards, because the stored empty string is JS-falsy.
Registering identifier `""` against hash `"h"` makes `""` canonical, yet a
later registration for `"h"` replaces it; likewise a stored empty hash for
`"a"` is overwritten by a later `registerHash("h2", "a")`. -/
theorem registerHash_counterexample :
    alFind (({} : Loader Nat Nat).registerHash "h" "").canonicals "h" = some "" ∧
    alFind ((({} : Loader Nat Nat).registerHash "h" "").registerHash
        "h" "b").canonicals "h" = some "b" ∧
    alFind (({} : Loader Nat Nat).registerHash "" "a").hashes "a" = some "" ∧
    alFind ((({} : Loader Nat Nat).registerHash "" "a").registerHash
        "h2" "a").hashes "a" = some "h2" :=
  ⟨rfl, rfl, rfl, rfl⟩

/-- C6 amended: `registerHash` is idempotent, and a stored non-empty
(JS-truthy) association is never overwritten: a hash's canonical
identifier, once set to a non-empty identifier, survives every later
`registerHash` call, and likewise a non-empty identifier→hash entry;
only associations whose stored value is the empty string (JS-falsy) can
be replaced. -/
theorem registerHash_amended {D V : Type} :
    (∀ (st : Loader D V) (h i : String),
        (st.registerHash h i).registerHash h i = st.registerHash h i)
    ∧ (∀ (st : Loader D V) (h c : String) (calls : List (String × String)),
        alFind st.canonicals h = some c → c ≠ "" →
        alFind (applyRegs st calls).canonicals h = some c)
    ∧ (∀ (st : Loader D V) (i x : String) (calls : List (String × String)),
        alFind st.hashes i = some x → x ≠ "" →
        alFind (applyRegs st calls).hashes i = some x) := by
  refine ⟨?_, ?_, ?_⟩
  · intro st h i
    simp [Loader.registerHash, jsSetIfFalsy_idem]
  · intro st h c calls
    induction calls generalizing st with
    | nil => exact fun hf _ => hf
    | cons p rest ih =>
        intro hf hc
        exact ih (st.registerHash p.1 p.2)
          (jsSetIfFalsy_preserve st.canonicals h p.1 p.2 c hf hc) hc
  · intro st i x calls
    induction calls generalizing st with
    | nil => exact fun hf _ => hf
    | cons p rest ih =>
        intro hf hx
        exact ih (st.registerHash p.1 p.2)
          (jsSetIfFalsy_preserve st.hashes i p.2 p.1 x hf hx) hx

/-- C6 witness: idempotence and both preservation statements at concrete
states with non-empty stored values. -/
theorem registerHash_amended_witness :
    ((({ canonicals := [("h", "a")], hashes := [("a", "h")] } :
        Loader Nat Nat).registerHash "h" "b").registerHash "h" "b"
      = ({ canonicals := [("h", "a")], hashes := [("a", "h")] } :
        Loader Nat Nat).registerHash "h" "b")
    ∧ alFind (applyRegs ({ canonicals := [("h", "a")] } : Loader Nat Nat)
        [("h", "b")]).canonicals "h" = some "a"
    ∧ alFind (applyRegs ({ hashes := [("a", "h")] } : Loader Nat Nat)
        [("x", "a")]).hashes "a" = some "h" :=
  ⟨registerHash_amended.1 _ "h" "b",
   registerHash_amended.2.1 _ "h" "a" [("h", "b")] rfl (by decide),
   registerHash_amended.2.2 _ "a" "h" [("x", "a")] rfl (by decide)⟩

/-- C9: `registerHash(h, i)` updates its two maps independently: when `i`
already has a (truthy) registered hash `hOld` different from `h` and `h`
has no canonical identifier yet, the call keeps `i → hOld` unchanged and
still makes `i` the canonical identifier for `h`. -/
theorem registerHash_independent_mappings {D V : Type} (st : Loader D V)
    (h hOld i : String)
    (hhash : alFind st.hashes i = some hOld) (hOldNe : hOld ≠ "")
    (hdiff : hOld ≠ h) (hnoc : alFind st.canonicals h = none) :
    alFind (st.registerHash h i).hashes i = some hOld ∧
    alFind (st.registerHash h i).canonicals h = some i := by
  constructor
  · have ht : truthy (some hOld) = true := by simp [truthy, hOldNe]
    simp [Loader.registerHash, jsSetIfFalsy, hhash, ht]
  · have hf : truthy (alFind st.canonicals h) = false := by
      rw [hnoc]; rfl
    simp [Loader.registerHash, jsSetIfFalsy, hf, alFind_insert_self]

/-- C9 witness: a concrete loader where `"i"` is registered to `"h0"` and
`"h1"` has no canonical identifier. -/
theorem registerHash_independent_mappings_witness :
    alFind (({ hashes := [("i", "h0")] } :
        Loader Nat Nat).registerHash "h1" "i").hashes "i" = some "h0" ∧
    alFind (({ hashes := [("i", "h0")] } :
        Loader Nat Nat).registerHash "h1" "i").canonicals "h1" = some "i" :=
  registerHash_independent_mappings _ "h1" "h0" "i" rfl (by decide) (by decide) rfl

end PcResources

/-! Helper lemmas about `addToCache`, `postOpen` and `dispatch`. -/

namespace PcResources

theorem addToCache_requested {D V : Type} (st : Loader D V) (i : String) (r : V) :
    (st.addToCache i r).requested = st.requested := by
  unfold Loader.addToCache
  cases st.getHash i with
  | none => rfl
  | some hsh => dsimp only; split <;> rfl

theorem addToCache_loaded {D V : Type} (st : Loader D V) (i : String) (r : V) :
    (st.addToCache i r).loaded = st.loaded := by
  unfold Loader.addToCache
  cases st.getHash i with
  | none => rfl
  | some hsh => dsimp only; split <;> rfl

theorem addToCache_handlers {D V : Type} (st : Loader D V) (i : String) (r : V) :
    (st.addToCache i r).handlers = st.handlers := by
  unfold Loader.addToCache
  cases st.getHash i with
  | none => rfl
  | some hsh => dsimp only; split <;> rfl

theorem postOpen_requested {D V : Type} (st : Loader D V) (req : Req D) (r : V) :
    (st.postOpen req r).1.requested = st.requested := by
  unfold Loader.postOpen
  dsimp only
  split <;> simp [addToCache_requested]

theorem postOpen_loaded_of_isSome {D V : Type} (st : Loader D V) (req : Req D) (r : V)
    (h : (st.postOpen req r).2.isSome) :
    (st.postOpen req r).1.loaded = st.loaded + 1 := by
  unfold Loader.postOpen at *
  dsimp only at *
  split at h
  · simp at h
  · simp_all [addToCache_loaded]

theorem postOpen_some_of_handler {D V : Type} (st : Loader D V) (req : Req D) (r : V)
    (hs : HandlerSpec D V) (hh : alFind st.handlers req.type = some hs) :
    st.postOpen req r =
      ({ st.addToCache req.canonical r with
            requests := alErase (st.addToCache req.canonical r).requests req.canonical,
            loaded := (st.addToCache req.canonical r).loaded + 1 },
       some (hs.cloneFn r req,
             [Ev.cloneCall req.canonical,
              Ev.progress ((st.addToCache req.canonical r).loaded + 1) st.requested,
              Ev.loadFired])) := by
  unfold Loader.postOpen
  dsimp only
  rw [addToCache_handlers, hh]
  dsimp only
  rw [addToCache_requested]

end PcResources

/-! Claims C1, C3, C5, C10: dispatch behaviour. -/

namespace PcResources

/-- C1, evaluated at the failing input: `"a.png"` and `"b.png"` are both
registered to hash `"h1"` (`"a.png"` first, so canonical); `request("a.png")`
and then `request("b.png")` are issued while neither has completed. Both
requests are canonicalized to `"a.png"`, yet `handler.load` is invoked
twice — once per caller — because `_findExistingRequest` looks up
`_requests[request.canonical]` before `_makeCanonical` has replaced the
fresh request's canonical (still `"b.png"`), so the in-flight request
keyed under `"a.png"` is never found. The claim (and the loader's own
documentation of `registerHash`) say the load would happen exactly once. -/
theorem dedup_two_identifiers_two_loads :
    (runC1.1.events ++ runC1.2.events).countP isLoadCall = 2 ∧
    runC1.1.req.canonical = "a.png" ∧
    runC1.2.req.canonical = "a.png" ∧
    runC1.1.res = .pendingLoad ∧
    runC1.2.res = .pendingLoad :=
  ⟨by decide, rfl, rfl, rfl, rfl⟩

/-- C3, evaluated at the failing path: the follow-on promise created for a
deduplicated second caller waits on `promises[0]` with an on-fulfilled
callback only, so when the shared primary promise rejects — for any
reason, in any state — the second caller's promise never settles; in
particular it does not reject, contradicting the claim that the failure
surfaces as a rejection of that caller's promise. -/
theorem dedupFollowOn_never_settles_on_rejection {D V : Type}
    (st : Loader D V) (req : Req D) (e : JsErr) :
    st.dedupFollowOn req (.error e) = none := rfl

/-- C5 counterexample: two `request("x.png")` calls while the first is in
flight. The second caller is merged onto the existing in-flight request
(`runC5.2.2 = true`) and waits on the primary promise, yet `_requested`
still increments — `_request` runs `this._requested++` on every call,
including the merged-duplicate branch — ending at 2 where the claim
requires it to stay 1. -/
theorem requested_counter_counterexample :
    runC5.2.2 = true ∧
    runC5.1.1.st.requested = 1 ∧
    runC5.2.1.st.requested = 2 ∧
    runC5.2.1.res = .pendingPrimary :=
  ⟨rfl, rfl, rfl, rfl⟩

/-- C5 amended: `_requested` increments exactly once per `_request` call —
including a call merged onto an existing in-flight request — and `_loaded`
increments exactly once per successful `_postOpen` (one per settled
caller-facing promise), which leaves `_requested` unchanged; consequently
`loaded/requested` is monotonically non-decreasing over any sequence of
completions. -/
theorem counters_amended {D V : Type} :
    (∀ (st : Loader D V) (M : JsModel V) (req : Req D),
        (st.dispatch M req).st.requested = st.requested + 1)
    ∧ (∀ (st : Loader D V) (req : Req D) (r : V),
        (st.postOpen req r).2.isSome →
        (st.postOpen req r).1.loaded = st.loaded + 1 ∧
        (st.postOpen req r).1.requested = st.requested)
    ∧ (∀ (st st' : Loader D V), Relation.ReflTransGen PostOpenStep st st' →
        progressRatio st ≤ progressRatio st') := by
  refine ⟨?_, ?_, ?_⟩
  · intro st M req
    unfold Loader.dispatch
    cases req.id <;>
      (dsimp only
       split
       · rfl
       · split
         · rfl
         · split
           · split <;>
               (rename_i heq
                have h := congrArg (fun p => p.1.requested) heq
                dsimp only at h
                rw [postOpen_requested] at h
                dsimp only at h ⊢
                omega)
           · rfl)
  · intro st req r h
    exact ⟨postOpen_loaded_of_isSome st req r h, postOpen_requested st req r⟩
  · intro st st' hchain
    induction hchain with
    | refl => exact le_refl _
    | tail hab hbc ih =>
        rename_i b c
        obtain ⟨req, r, v, evs, heq⟩ := hbc
        refine le_trans ih ?_
        have h1 : (b.postOpen req r).1 = c := by rw [heq]
        have h2 : (b.postOpen req r).2.isSome := by rw [heq]; rfl
        have hl := postOpen_loaded_of_isSome b req r h2
        have hr := postOpen_requested b req r
        rw [h1] at hl hr
        unfold progressRatio
        rw [hl, hr]
        rw [div_eq_mul_inv, div_eq_mul_inv]
        apply mul_le_mul_of_nonneg_right
        · push_cast
          linarith
        · exact inv_nonneg.mpr (Nat.cast_nonneg _)

/-- C5 witness: the amended statement at a concrete dispatch and a
concrete one-step completion chain. -/
theorem counters_amended_witness :
    ((({ handlers := [("t", natHandler)], hashes := [("c", "h")], requested := 1 } :
        Loader Nat Nat).dispatch natM (mkReq "t" "c")).st.requested = 1 + 1)
    ∧ ((({ handlers := [("t", natHandler)], hashes := [("c", "h")], requested := 1 } :
        Loader Nat Nat).postOpen (mkReq "t" "c") 5).1.loaded = 0 + 1)
    ∧ progressRatio
        ({ handlers := [("t", natHandler)], hashes := [("c", "h")],
                requested := 1 } : Loader Nat Nat) ≤
      progressRatio
        ({ handlers := [("t", natHandler)], hashes := [("c", "h")],
                cache := [("h", 5)], requested := 1, loaded := 1 } : Loader Nat Nat) :=
  ⟨counters_amended.1 _ natM _,
   (counters_amended.2.1 _ (mkReq "t" "c") 5 (by decide)).1,
   counters_amended.2.2 _ _ (Relation.ReflTransGen.single
     ⟨mkReq "t" "c", 5, 5,
      [Ev.cloneCall "c", Ev.progress 1 1, Ev.loadFired], rfl⟩)⟩

/-- C10: for a type with no registered handler, `ResourceLoader.open`
fails with the unguarded undefined-access `TypeError` from
`this._handlers[request.type].open`, while `_request` for the same type
rejects with the descriptive message and fires an error event. -/
theorem openDirect_missing_handler {D V : Type} (M : JsModel V) (st : Loader D V)
    (typ ident : String) (data : D)
    (hmiss : alFind st.handlers typ = none) :
    st.openDirect typ data = .error .typeError ∧
    (st.dispatch M (mkReq typ ident)).res
        = .settled (.error (.reason ("Missing handler for type: " ++ typ))) ∧
    (st.dispatch M (mkReq typ ident)).events
        = [Ev.request ident, Ev.error ("Missing handler for type: " ++ typ)] := by
  refine ⟨?_, ?_, ?_⟩
  · unfold Loader.openDirect
    rw [hmiss]
  · unfold Loader.dispatch
    simp [mkReq, hmiss]
  · unfold Loader.dispatch
    simp [mkReq, hmiss]

/-- C10 witness: the empty loader has no handler for `"image"`. -/
theorem openDirect_missing_handler_witness :
    (({} : Loader Nat Nat).openDirect "image" 0 = .error .typeError) ∧
    ((({} : Loader Nat Nat).dispatch natM (mkReq "image" "x")).res
        = .settled (.error (.reason ("Missing handler for type: " ++ "image")))) ∧
    ((({} : Loader Nat Nat).dispatch natM (mkReq "image" "x")).events
        = [Ev.request "x", Ev.error ("Missing handler for type: " ++ "image")]) :=
  openDirect_missing_handler natM {} "image" "x" 0 rfl

end PcResources

/-! Helper lemmas about the cache branches of `dispatch`. -/

namespace PcResources

theorem typeOk_eq {D V : Type} (M : JsModel V) (req req' : Req D) (r : V)
    (h : req.TypeTag = req'.TypeTag) : typeOk M req r = typeOk M req' r := by
  unfold typeOk
  rw [h]

theorem getFromCache_seq {D V : Type} (st : Loader D V) (n : Nat) (i : String) :
    (({ st with sequence := n } : Loader D V)).getFromCache i = st.getFromCache i := rfl

/-- When a handler is registered, the cache holds a truthy value for the
request's canonical identifier and the type check passes, `_request`
resolves synchronously with a clone of the cached value, without invoking
`handler.load`. -/
theorem dispatch_cache_hit {D V : Type} (M : JsModel V) (st : Loader D V) (req : Req D)
    (hs : HandlerSpec D V) (r : V)
    (hpc : req.promiseCount = 0)
    (hh : alFind st.handlers req.type = some hs)
    (hc : st.getFromCache req.canonical = some r)
    (htr : M.vTruthy r = true) (hok : typeOk M req r = true) :
    ∃ rq : Req D,
      (st.dispatch M req).res = .settled (.ok (hs.cloneFn r rq)) ∧
      (st.dispatch M req).events =
        [Ev.request req.identifier, Ev.cloneCall req.canonical,
         Ev.progress (st.loaded + 1) st.requested, Ev.loadFired] := by
  unfold Loader.dispatch
  cases hid : req.id with
  | none =>
      refine ⟨{ req with id := some st.sequence, promiseCount := 1 }, ?_⟩
      dsimp only
      rw [hpc]
      simp only [ne_eq, not_true_eq_false, if_false, reduceIte]
      rw [hh]
      dsimp only
      rw [getFromCache_seq, hc]
      dsimp only
      rw [typeOk_eq M { req with id := some st.sequence, promiseCount := 1 } req r rfl,
          hok, htr]
      simp only [Bool.and_self, if_true, reduceIte]
      rw [postOpen_some_of_handler { st with sequence := st.sequence + 1 }
            { req with id := some st.sequence, promiseCount := 1 } r hs hh]
      dsimp only
      rw [addToCache_loaded]
      exact ⟨rfl, rfl⟩
  | some n =>
      refine ⟨{ req with promiseCount := 1 }, ?_⟩
      dsimp only
      rw [hpc]
      simp only [ne_eq, not_true_eq_false, if_false, reduceIte]
      rw [hh]
      dsimp only
      rw [hc]
      dsimp only
      rw [typeOk_eq M { req with promiseCount := 1 } req r rfl, hok, htr]
      simp only [Bool.and_self, if_true, reduceIte]
      rw [postOpen_some_of_handler st { req with promiseCount := 1 } r hs hh]
      dsimp only
      rw [addToCache_loaded]
      exact ⟨rfl, rfl⟩

/-- When a handler is registered and the cache has nothing for the
request's canonical identifier, `_request` invokes `handler.load`. -/
theorem dispatch_load_of_cache_none {D V : Type} (M : JsModel V) (st : Loader D V)
    (req : Req D) (hs : HandlerSpec D V)
    (hpc : req.promiseCount = 0)
    (hh : alFind st.handlers req.type = some hs)
    (hc : st.getFromCache req.canonical = none) :
    (st.dispatch M req).res = .pendingLoad ∧
    (st.dispatch M req).events =
      [Ev.request req.identifier, Ev.loadCall req.canonical] := by
  unfold Loader.dispatch
  cases hid : req.id with
  | none =>
      dsimp only
      rw [hpc]
      simp only [ne_eq, not_true_eq_false, if_false, reduceIte]
      rw [hh]
      dsimp only
      rw [getFromCache_seq, hc]
      exact ⟨rfl, rfl⟩
  | some n =>
      dsimp only
      rw [hpc]
      simp only [ne_eq, not_true_eq_false, if_false, reduceIte]
      rw [hh]
      dsimp only
      rw [hc]
      exact ⟨rfl, rfl⟩

/-- When the cache holds a value for the canonical identifier but the
truthiness/`instanceof` check fails, `_request` bypasses the cache and
invokes `handler.load`. -/
theorem dispatch_load_of_type_mismatch {D V : Type} (M : JsModel V) (st : Loader D V)
    (req : Req D) (hs : HandlerSpec D V) (r : V)
    (hpc : req.promiseCount = 0)
    (hh : alFind st.handlers req.type = some hs)
    (hc : st.getFromCache req.canonical = some r)
    (hbad : (M.vTruthy r && typeOk M req r) = false) :
    (st.dispatch M req).res = .pendingLoad ∧
    (st.dispatch M req).events =
      [Ev.request req.identifier, Ev.loadCall req.canonical] := by
  unfold Loader.dispatch
  cases hid : req.id with
  | none =>
      dsimp only
      rw [hpc]
      simp only [ne_eq, not_true_eq_false, if_false, reduceIte]
      rw [hh]
      dsimp only
      rw [getFromCache_seq, hc]
      dsimp only
      rw [typeOk_eq M { req with id := some st.sequence, promiseCount := 1 } req r rfl]
      rw [hbad]
      exact ⟨rfl, rfl⟩
  | some n =>
      dsimp only
      rw [hpc]
      simp only [ne_eq, not_true_eq_false, if_false, reduceIte]
      rw [hh]
      dsimp only
      rw [hc]
      dsimp only
      rw [typeOk_eq M { req with promiseCount := 1 } req r rfl]
      rw [hbad]
      exact ⟨rfl, rfl⟩

end PcResources

/-! Claim C8: the type-mismatch cache bypass. -/

namespace PcResources

/-- C8: when the cache holds a (truthy) resource for the request's
canonical identifier but the request declares an expected `Type` and the
cached instance is not an `instanceof` it, `_request` performs a fresh
`handler.load` instead of resolving from the cache; when the check passes
(or no `Type` is declared, `typeOk` then being `true` by definition) it
resolves synchronously with a clone of the cached entry and no load. -/
theorem type_mismatch_bypass {D V : Type} (M : JsModel V) (st : Loader D V)
    (req : Req D) (hs : HandlerSpec D V) (r : V)
    (hpc : req.promiseCount = 0)
    (hh : alFind st.handlers req.type = some hs)
    (hc : st.getFromCache req.canonical = some r)
    (htr : M.vTruthy r = true) :
    (∀ tag, req.TypeTag = some tag → M.instOf r tag = false →
        (st.dispatch M req).res = .pendingLoad ∧
        (st.dispatch M req).events.countP isLoadCall = 1)
    ∧ (typeOk M req r = true →
        (st.dispatch M req).events.countP isLoadCall = 0 ∧
        ∃ rq : Req D,
          (st.dispatch M req).res = .settled (.ok (hs.cloneFn r rq)) ∧
          (st.dispatch M req).events.countP isCloneCall = 1) := by
  constructor
  · intro tag htag hbadInst
    have hbad : (M.vTruthy r && typeOk M req r) = false := by
      unfold typeOk
      rw [htag]
      dsimp only
      rw [hbadInst]
      exact Bool.and_false _
    obtain ⟨h1, h2⟩ := dispatch_load_of_type_mismatch M st req hs r hpc hh hc hbad
    refine ⟨h1, ?_⟩
    rw [h2]
    simp [isLoadCall]
  · intro hok
    obtain ⟨rq, h1, h2⟩ := dispatch_cache_hit M st req hs r hpc hh hc htr hok
    refine ⟨?_, rq, h1, ?_⟩ <;>
      · rw [h2]
        simp [isLoadCall, isCloneCall]

/-- C8 witness: a cached resource `5` for `"c"`; under a model where
nothing is an instance of `"T"`, a request expecting `"T"` goes back to
`handler.load`; with no expected type the same state resolves from the
cache with one clone and no load. -/
theorem type_mismatch_bypass_witness :
    ((({ handlers := [("t", natHandler)], hashes := [("c", "h")], cache := [("h", 5)] } :
        Loader Nat Nat).dispatch
        (JsModel.mk (fun v => decide (v ≠ 0)) (fun _ _ => false))
        ({ identifier := "c", canonical := "c", type := "t", TypeTag := some "T" } :
          Req Nat)).res = .pendingLoad)
    ∧ ((({ handlers := [("t", natHandler)], hashes := [("c", "h")], cache := [("h", 5)] } :
        Loader Nat Nat).dispatch
        (JsModel.mk (fun v => decide (v ≠ 0)) (fun _ _ => false))
        ({ identifier := "c", canonical := "c", type := "t", TypeTag := some "T" } :
          Req Nat)).events.countP isLoadCall = 1)
    ∧ ((({ handlers := [("t", natHandler)], hashes := [("c", "h")], cache := [("h", 5)] } :
        Loader Nat Nat).dispatch natM (mkReq "t" "c")).events.countP isLoadCall = 0) :=
  ⟨((type_mismatch_bypass
        (JsModel.mk (fun v : Nat => decide (v ≠ 0)) (fun _ _ => false))
        ({ handlers := [("t", natHandler)], hashes := [("c", "h")], cache := [("h", 5)] } :
          Loader Nat Nat)
        ({ identifier := "c", canonical := "c", type := "t", TypeTag := some "T" } :
          Req Nat)
        natHandler 5 rfl rfl rfl rfl).1 "T" rfl rfl).1,
   ((type_mismatch_bypass
        (JsModel.mk (fun v : Nat => decide (v ≠ 0)) (fun _ _ => false))
        ({ handlers := [("t", natHandler)], hashes := [("c", "h")], cache := [("h", 5)] } :
          Loader Nat Nat)
        ({ identifier := "c", canonical := "c", type := "t", TypeTag := some "T" } :
          Req Nat)
        natHandler 5 rfl rfl rfl rfl).1 "T" rfl rfl).2,
   ((type_mismatch_bypass natM
        ({ handlers := [("t", natHandler)], hashes := [("c", "h")], cache := [("h", 5)] } :
          Loader Nat Nat)
        (mkReq "t" "c") natHandler 5 rfl rfl rfl rfl).2 rfl).1⟩

end PcResources

/-! Claim C7: cache-hit equivalence. -/

namespace PcResources

theorem findExistingRequest_of_none {D V : Type} (st : Loader D V) (req : Req D)
    (h : alFind st.requests req.canonical = none) :
    st.findExistingRequest req = (req, false) := by
  unfold Loader.findExistingRequest
  rw [h]

theorem makeCanonical_keep {D V : Type} (st : Loader D V) (req : Req D) (hsh : String)
    (h1 : st.getHash req.identifier = some hsh) (h2 : hsh ≠ "")
    (h3 : alFind st.canonicals hsh = some req.identifier) :
    st.makeCanonical req = { req with canonical := req.identifier } := by
  unfold Loader.makeCanonical
  rw [h1]
  dsimp only
  rw [if_neg h2, h3]
  dsimp only
  exact ite_self _

/-- C7: with `ident` registered to a truthy hash and canonical for it, a
`request(ident)` that completed successfully (its load returned data that
opened to a truthy resource `r`) leaves `r` in the cache; a second
`request(ident)` then invokes no `handler.load` — the first dispatch did
invoke it once — but still invokes `handler.clone` exactly once and
resolves with the cloned cached resource. -/
theorem cache_hit_no_second_load {D V : Type} (M : JsModel V) (hs : HandlerSpec D V)
    (t ident hsh : String) (d : D) (r : V)
    (hhsh : hsh ≠ "")
    (hopen : ∀ rq, hs.openFn d rq = .ok r)
    (htr : M.vTruthy r = true) :
    ((c7afterFirst M hs t ident hsh (Except.ok d)).1.events.countP isLoadCall = 1)
    ∧ (∃ rq1 : Req D, (c7afterFirst M hs t ident hsh (Except.ok d)).2.2.1
        = .ok (hs.cloneFn r rq1))
    ∧ ((c7second M hs t ident hsh d).events.countP isLoadCall = 0)
    ∧ ((c7second M hs t ident hsh d).events.countP isCloneCall = 1)
    ∧ (∃ rq2 : Req D, (c7second M hs t ident hsh d).res
        = .settled (.ok (hs.cloneFn r rq2))) := by
  have ho1 : ((c7st0 (D := D) (V := V) hs t ident hsh).requestOne M (mkReq t ident)).1
      = ⟨{ handlers := [(t, hs)],
           requests := [(ident,
             { id := some 0, identifier := ident, canonical := ident,
               promiseCount := 1, data := none, result := false, type := t,
               TypeTag := none })],
           hashes := [(ident, hsh)], canonicals := [(hsh, ident)],
           requested := 1, sequence := 1 },
         { id := some 0, identifier := ident, canonical := ident,
           promiseCount := 1, data := none, result := false, type := t,
           TypeTag := none },
         [Ev.request ident, Ev.loadCall ident], .pendingLoad⟩ := by
    simp [c7st0, Loader.requestOne, Loader.findExistingRequest, Loader.makeCanonical,
          Loader.getHash, Loader.dispatch, Loader.getFromCache, mkReq, alFind, alInsert,
          hhsh]
  have ho2 :
      Loader.completeLoad
        { handlers := [(t, hs)],
          requests := [(ident,
            { id := some 0, identifier := ident, canonical := ident,
              promiseCount := 1, data := none, result := false, type := t,
              TypeTag := none })],
          hashes := [(ident, hsh)], canonicals := [(hsh, ident)],
          requested := 1, sequence := 1 }
        M
        { id := some 0, identifier := ident, canonical := ident,
          promiseCount := 1, data := none, result := false, type := t,
          TypeTag := none }
        (Except.ok d)
      = ({ handlers := [(t, hs)], requests := [], cache := [(hsh, r)],
           hashes := [(ident, hsh)], canonicals := [(hsh, ident)],
           requested := 1, loaded := 1, sequence := 1 },
         Except.ok (hs.cloneFn r
           { id := some 0, identifier := ident, canonical := ident,
             promiseCount := 1, data := none, result := false, type := t,
             TypeTag := none }),
         [Ev.cloneCall ident, Ev.progress 1 1, Ev.loadFired]) := by
    simp [Loader.completeLoad, Loader.postOpen, Loader.addToCache, Loader.getHash,
          alFind, alInsert, alErase, hopen, htr, hhsh]
  have hAF : c7afterFirst M hs t ident hsh (Except.ok d)
      = (⟨{ handlers := [(t, hs)],
            requests := [(ident,
              { id := some 0, identifier := ident, canonical := ident,
                promiseCount := 1, data := none, result := false, type := t,
                TypeTag := none })],
            hashes := [(ident, hsh)], canonicals := [(hsh, ident)],
            requested := 1, sequence := 1 },
          { id := some 0, identifier := ident, canonical := ident,
            promiseCount := 1, data := none, result := false, type := t,
            TypeTag := none },
          [Ev.request ident, Ev.loadCall ident], .pendingLoad⟩,
         ({ handlers := [(t, hs)], requests := [], cache := [(hsh, r)],
            hashes := [(ident, hsh)], canonicals := [(hsh, ident)],
            requested := 1, loaded := 1, sequence := 1 },
          Except.ok (hs.cloneFn r
            { id := some 0, identifier := ident, canonical := ident,
              promiseCount := 1, data := none, result := false, type := t,
              TypeTag := none }),
          [Ev.cloneCall ident, Ev.progress 1 1, Ev.loadFired])) := by
    unfold c7afterFirst
    rw [ho1]
    dsimp only
    rw [ho2]
  have hsecond : c7second M hs t ident hsh d
      = Loader.dispatch
          { handlers := [(t, hs)], requests := [], cache := [(hsh, r)],
            hashes := [(ident, hsh)], canonicals := [(hsh, ident)],
            requested := 1, loaded := 1, sequence := 1 }
          M { (mkReq t ident : Req D) with
                canonical := (mkReq t ident : Req D).identifier } := by
    unfold c7second
    rw [hAF]
    dsimp only
    unfold Loader.requestOne
    rw [findExistingRequest_of_none
          { handlers := [(t, hs)], requests := [], cache := [(hsh, r)],
            hashes := [(ident, hsh)], canonicals := [(hsh, ident)],
            requested := 1, loaded := 1, sequence := 1 }
          (mkReq t ident) rfl]
    simp only [Bool.false_eq_true, if_false, reduceIte]
    rw [makeCanonical_keep
          { handlers := [(t, hs)], requests := [], cache := [(hsh, r)],
            hashes := [(ident, hsh)], canonicals := [(hsh, ident)],
            requested := 1, loaded := 1, sequence := 1 }
          (mkReq t ident) hsh (by simp [Loader.getHash, mkReq, alFind]) hhsh
          (by simp [mkReq, alFind])]
  obtain ⟨rq2, hres2, hevs2⟩ :=
    dispatch_cache_hit M
      { handlers := [(t, hs)], requests := [], cache := [(hsh, r)],
        hashes := [(ident, hsh)], canonicals := [(hsh, ident)],
        requested := 1, loaded := 1, sequence := 1 }
      { (mkReq t ident : Req D) with
          canonical := (mkReq t ident : Req D).identifier } hs r
      rfl
      (by simp [mkReq, alFind])
      (by simp [Loader.getFromCache, Loader.getHash, mkReq, alFind, hhsh])
      htr rfl
  refine ⟨?_, ?_, ?_, ?_, ?_⟩
  · rw [hAF]
    simp [isLoadCall]
  · rw [hAF]
    exact ⟨_, rfl⟩
  · rw [hsecond, hevs2]
    simp [isLoadCall]
  · rw [hsecond, hevs2]
    simp [isCloneCall]
  · rw [hsecond]
    exact ⟨rq2, hres2⟩

/-- C7 witness: the scenario at concrete strings, handler and resource. -/
theorem cache_hit_no_second_load_witness :
    ((c7afterFirst natM natHandler "image" "i.png" "h1" (Except.ok 7)).1.events.countP
        isLoadCall = 1)
    ∧ (∃ rq1 : Req Nat, (c7afterFirst natM natHandler "image" "i.png" "h1"
        (Except.ok 7)).2.2.1 = .ok (natHandler.cloneFn 7 rq1))
    ∧ ((c7second natM natHandler "image" "i.png" "h1" 7).events.countP isLoadCall = 0)
    ∧ ((c7second natM natHandler "image" "i.png" "h1" 7).events.countP isCloneCall = 1)
    ∧ (∃ rq2 : Req Nat, (c7second natM natHandler "image" "i.png" "h1" 7).res
        = .settled (.ok (natHandler.cloneFn 7 rq2))) :=
  cache_hit_no_second_load natM natHandler "image" "i.png" "h1" 7 7
    (by decide) (fun _ => rfl) rfl

end PcResources

/-! Claim C2: recursive subtree completion. -/

namespace PcResources

theorem check_unfold {V : Type} (res : List V) (rs : List (RNode V)) :
    check res rs = (if (flatPromises (flatChildren rs)).isEmpty then Except.ok res
      else match promiseAll (flatPromises (flatChildren rs)) with
        | .error e => .error e
        | .ok _ => check res (flatChildren rs)) := by
  rw [check]

theorem forestSize_append {V : Type} (a b : List (RNode V)) :
    forestSize (a ++ b) = forestSize a + forestSize b := by
  induction a with
  | nil => simp [forestSize]
  | cons n rest ih =>
      cases n with
      | node p cs =>
          simp only [List.cons_append, forestSize, ih]
          omega

theorem forestSize_flatChildren_le {V : Type} (rs : List (RNode V)) :
    forestSize (flatChildren rs) ≤ forestSize rs := by
  induction rs with
  | nil => simp [flatChildren, forestSize]
  | cons n rest ih =>
      cases n with
      | node p cs =>
          simp only [flatChildren, forestSize, forestSize_append, RNode.children]
          omega

theorem forestSize_flatChildren_lt {V : Type} (rs : List (RNode V)) (h : rs ≠ []) :
    forestSize (flatChildren rs) < forestSize rs := by
  cases rs with
  | nil => exact absurd rfl h
  | cons n rest =>
      cases n with
      | node p cs =>
          simp only [flatChildren, forestSize, forestSize_append, RNode.children]
          have := forestSize_flatChildren_le rest
          omega

theorem subtreeNodes_append {V : Type} (a b : List (RNode V)) :
    subtreeNodes (a ++ b) = subtreeNodes a ++ subtreeNodes b := by
  induction a with
  | nil => simp [subtreeNodes]
  | cons n rest ih =>
      cases n with
      | node p cs => simp [subtreeNodes, ih]

theorem mem_subtreeNodes_of_mem {V : Type} (rs : List (RNode V)) (d : RNode V)
    (h : d ∈ rs) : d ∈ subtreeNodes rs := by
  induction rs with
  | nil => cases h
  | cons n rest ih =>
      cases n with
      | node p cs =>
          rcases List.mem_cons.mp h with h1 | h2
          · subst h1
            simp [subtreeNodes]
          · simp [subtreeNodes, ih h2]

theorem mem_subtreeNodes_iff {V : Type} (rs : List (RNode V)) (d : RNode V) :
    d ∈ subtreeNodes rs ↔ d ∈ rs ∨ d ∈ subtreeNodes (flatChildren rs) := by
  induction rs with
  | nil => simp [subtreeNodes, flatChildren]
  | cons n rest ih =>
      cases n with
      | node p cs =>
          simp only [subtreeNodes, flatChildren, RNode.children, subtreeNodes_append,
                     List.mem_cons, List.mem_append]
          tauto

theorem mem_flatPromises_of_mem {V : Type} (rs : List (RNode V)) (d : RNode V)
    (p : Except String V) (hd : d ∈ rs) (hp : p ∈ d.promises) :
    p ∈ flatPromises rs := by
  induction rs with
  | nil => cases hd
  | cons n rest ih =>
      rcases List.mem_cons.mp hd with h1 | h2
      · subst h1
        simp only [flatPromises, List.mem_append]
        exact Or.inl hp
      · simp only [flatPromises, List.mem_append]
        exact Or.inr (ih h2)

theorem flatPromises_nil_forces {V : Type} (rs : List (RNode V))
    (hwf : ∀ d ∈ rs, d.promises ≠ [])
    (h : flatPromises rs = []) : rs = [] := by
  cases rs with
  | nil => rfl
  | cons n rest =>
      exfalso
      have hne := hwf n (List.mem_cons_self n rest)
      have : n.promises ++ flatPromises rest = [] := h
      rcases List.append_eq_nil.mp this with ⟨h1, h2⟩
      exact hne h1

theorem promiseAll_ok_of_mem {V : Type} (l : List (Except String V)) (vs : List V)
    (hall : promiseAll l = .ok vs) (p : Except String V) (hp : p ∈ l) :
    ∃ v, p = .ok v := by
  induction l generalizing vs with
  | nil => cases hp
  | cons q rest ih =>
      cases q with
      | error e => simp [promiseAll] at hall
      | ok v =>
          rcases List.mem_cons.mp hp with h1 | h2
          · exact ⟨v, h1⟩
          · unfold promiseAll at hall
            cases hrest : promiseAll rest with
            | error e => rw [hrest] at hall; cases hall
            | ok ws => exact ih ws hrest h2

theorem check_ok_strong {V : Type} :
    ∀ (n : Nat) (res vs : List V) (rs : List (RNode V)),
      forestSize rs ≤ n →
      (∀ d ∈ subtreeNodes rs, d.promises ≠ []) →
      check res rs = .ok vs →
      vs = res ∧
        ∀ d ∈ subtreeNodes (flatChildren rs), ∀ p ∈ d.promises, ∃ v, p = .ok v := by
  intro n
  induction n with
  | zero =>
      intro res vs rs hsz hwf hchk
      cases rs with
      | nil =>
          rw [check_unfold] at hchk
          have hchk2 : (Except.ok res : Except String (List V)) = Except.ok vs := hchk
          cases hchk2
          refine ⟨rfl, ?_⟩
          intro d hd
          simp [flatChildren, subtreeNodes] at hd
      | cons m rest =>
          exfalso
          cases m with
          | node p cs => simp only [forestSize] at hsz; omega
  | succ n ih =>
      intro res vs rs hsz hwf hchk
      rw [check_unfold] at hchk
      by_cases hemp : (flatPromises (flatChildren rs)).isEmpty = true
      · rw [if_pos hemp] at hchk
        have hflat : flatPromises (flatChildren rs) = [] := by
          exact List.isEmpty_iff.mp hemp
        have hchildren : flatChildren rs = [] := by
          apply flatPromises_nil_forces _ _ hflat
          intro d hd
          exact hwf d ((mem_subtreeNodes_iff rs d).mpr
            (Or.inr (mem_subtreeNodes_of_mem _ d hd)))
        refine ⟨?_, ?_⟩
        · cases hchk
          rfl
        · intro d hd
          rw [hchildren] at hd
          simp [subtreeNodes] at hd
      · rw [if_neg hemp] at hchk
        have hne : flatChildren rs ≠ [] := by
          intro hnil
          apply hemp
          rw [hnil]
          rfl
        have hrsne : rs ≠ [] := by
          intro hnil
          apply hne
          rw [hnil]
          rfl
        cases hall : promiseAll (flatPromises (flatChildren rs)) with
        | error e => rw [hall] at hchk; cases hchk
        | ok ws =>
            rw [hall] at hchk
            have hsz' : forestSize (flatChildren rs) ≤ n := by
              have := forestSize_flatChildren_lt rs hrsne
              omega
            have hwf' : ∀ d ∈ subtreeNodes (flatChildren rs), d.promises ≠ [] := by
              intro d hd
              exact hwf d ((mem_subtreeNodes_iff rs d).mpr (Or.inr hd))
            obtain ⟨hvs, hdeep⟩ := ih res vs (flatChildren rs) hsz' hwf' hchk
            refine ⟨hvs, ?_⟩
            intro d hd p hp
            rcases (mem_subtreeNodes_iff (flatChildren rs) d).mp hd with h1 | h2
            · exact promiseAll_ok_of_mem _ ws hall p
                (mem_flatPromises_of_mem _ d p h1 hp)
            · exact hdeep d h2 p hp

/-- C2: the enclosing `request()` promise resolves with exactly the array
obtained from the top-level caller promises, in input order (children's
resources are not appended); it resolves only if every promise of every
descendant request — gathered level by level by the `check` loop — was
fulfilled; and if any descendant promise rejects, the call rejects.
(Well-formedness: every request in the tree carries at least one promise,
which holds for every dispatched request since `_request` always installs
one before `request()` attaches the child to its parent.) -/
theorem request_subtree_completion {V : Type} (tops : List (RNode V))
    (hwf : ∀ d ∈ subtreeNodes tops, d.promises ≠ []) :
    (∀ vs, requestCall tops = .ok vs →
        promiseAll (tops.map callerPromise) = .ok vs ∧
        ∀ d ∈ subtreeNodes (flatChildren tops), ∀ p ∈ d.promises, ∃ v, p = .ok v)
    ∧ (∀ d ∈ subtreeNodes (flatChildren tops), ∀ p ∈ d.promises,
        (∃ e, p = .error e) → ∃ er, requestCall tops = .error er) := by
  constructor
  · intro vs hcall
    unfold requestCall at hcall
    cases htop : promiseAll (tops.map callerPromise) with
    | error e => rw [htop] at hcall; cases hcall
    | ok res =>
        rw [htop] at hcall
        obtain ⟨hvs, hdeep⟩ := check_ok_strong (forestSize tops) res vs tops
          le_rfl hwf hcall
        subst hvs
        exact ⟨rfl, hdeep⟩
  · intro d hd p hp ⟨e, pe⟩
    cases hres : requestCall tops with
    | error er => exact ⟨er, rfl⟩
    | ok vs =>
        exfalso
        have h1 := (by
          intro vs hcall
          unfold requestCall at hcall
          cases htop : promiseAll (tops.map callerPromise) with
          | error e2 => rw [htop] at hcall; cases hcall
          | ok res =>
              rw [htop] at hcall
              obtain ⟨hvs, hdeep⟩ := check_ok_strong (forestSize tops) res vs tops
                le_rfl hwf hcall
              exact hdeep :
          ∀ vs, requestCall tops = .ok vs →
            ∀ d ∈ subtreeNodes (flatChildren tops), ∀ p ∈ d.promises, ∃ v, p = .ok v)
        obtain ⟨v, hv⟩ := h1 vs hres d hd p hp
        rw [pe] at hv
        cases hv

/-- C2 witness: a parent whose child settles successfully; the call
resolves with only the parent's resource. -/
theorem request_subtree_completion_witness :
    promiseAll (List.map callerPromise
        [RNode.node [Except.ok (1 : Nat)] [RNode.node [Except.ok 2] []]])
      = .ok [1] :=
  ((request_subtree_completion
      [RNode.node [Except.ok (1 : Nat)] [RNode.node [Except.ok 2] []]]
      (by simp [subtreeNodes, RNode.promises, RNode.children])).1 [1]
    (by simp [requestCall, callerPromise, RNode.promises, promiseAll, check,
              flatChildren, flatPromises, RNode.children, List.getLast?])).1

end PcResources
